import Mathlib

/-!
Shallow embedding of the version model and resolution engine of the
`check-updates` repository (crates `core` and `src`): the semantic-version
parser and ordering (`core/src/version.rs`), the constraint (`VersionSpec`)
parser / satisfaction / retargeting, and the dependency resolver
(`src/src/resolver.rs`).  Strings are modelled as lists of characters;
`u64` values as `Nat` with an explicit `2^64` bound where the Rust parser
can overflow.
-/

namespace CheckUpdates

/-- Comparison of two characters by scalar value (Rust compares strings
bytewise; on the char level this is comparison of code points). -/
def ccmp (a b : Char) : Ordering := compare a.toNat b.toNat

/-- Lexicographic comparison of two character lists (Rust `str::cmp`). -/
def lcmp : List Char → List Char → Ordering
  | [], [] => .eq
  | [], _ :: _ => .lt
  | _ :: _, [] => .gt
  | a :: as, b :: bs =>
    match ccmp a b with
    | .eq => lcmp as bs
    | o => o

/-- Comparison of two optional pre-release tags, from `impl Ord for Version`:
a missing tag is greater than a present tag; two present tags compare
lexically. -/
def ocmp : Option (List Char) → Option (List Char) → Ordering
  | none, none => .eq
  | none, some _ => .gt
  | some _, none => .lt
  | some a, some b => lcmp a b

/-- `Version` from `core/src/version.rs`: major/minor/patch numbers, optional
pre-release tag, optional local/build-metadata segment, and the original
string. -/
structure Version where
  major : Nat
  minor : Nat
  patch : Nat
  pre_release : Option (List Char)
  localSeg : Option (List Char)
  original : List Char
deriving DecidableEq

/-- `impl PartialEq for Version`: equality on major, minor, patch and
pre-release only (local segment and original string are ignored). -/
def Version.eqb (a b : Version) : Bool :=
  a.major == b.major && a.minor == b.minor && a.patch == b.patch
    && a.pre_release == b.pre_release

/-- `impl Ord for Version`: compare major, then minor, then patch, then the
pre-release tags via `ocmp`. -/
def Version.cmp (a b : Version) : Ordering :=
  match compare a.major b.major with
  | .eq =>
    match compare a.minor b.minor with
    | .eq =>
      match compare a.patch b.patch with
      | .eq => ocmp a.pre_release b.pre_release
      | o => o
    | o => o
  | o => o

/-- Rust `PartialOrd::lt` derived from `cmp`. -/
def Version.ltb (a b : Version) : Bool := Version.cmp a b == .lt

/-- Rust `PartialOrd::ge` derived from `cmp`. -/
def Version.geb (a b : Version) : Bool := !(Version.cmp a b == .lt)

/-- Rust `PartialOrd::le` derived from `cmp`. -/
def Version.leb (a b : Version) : Bool := !(Version.cmp a b == .gt)

/-- Rust `PartialOrd::gt` derived from `cmp`. -/
def Version.gtb (a b : Version) : Bool := Version.cmp a b == .gt

/-- Decimal digits of a natural number, as characters. -/
def natChars (n : Nat) : List Char := Nat.toDigits 10 n

/-- `Version::new`: a plain `major.minor.patch` version with a synthesized
original string. -/
def Version.new (major minor patch : Nat) : Version :=
  { major := major, minor := minor, patch := patch,
    pre_release := none, localSeg := none,
    original := natChars major ++ [ '.' ] ++ natChars minor ++ [ '.' ] ++ natChars patch }

theorem char_eq_of_toNat_eq {a b : Char} (h : a.toNat = b.toNat) : a = b := by
  cases a with | mk av ah =>
  cases b with | mk bv bh =>
    have hv : av = bv := by
      cases av; cases bv
      have h2 : _ = _ := h
      simp only [Char.toNat, UInt32.toNat] at h2
      congr 1
      exact BitVec.eq_of_toNat_eq h2
    subst hv
    rfl

theorem ccmp_eq_iff {a b : Char} : ccmp a b = .eq ↔ a = b := by
  unfold ccmp
  rw [Nat.compare_eq_eq]
  constructor
  · exact char_eq_of_toNat_eq
  · intro h; rw [h]

theorem ccmp_lt_iff {a b : Char} : ccmp a b = .lt ↔ a.toNat < b.toNat := by
  unfold ccmp; exact Nat.compare_eq_lt

theorem ccmp_gt_iff {a b : Char} : ccmp a b = .gt ↔ b.toNat < a.toNat := by
  unfold ccmp; exact Nat.compare_eq_gt

theorem lcmp_eq_iff : ∀ {a b : List Char}, lcmp a b = .eq ↔ a = b := by
  intro a
  induction a with
  | nil => intro b; cases b <;> simp [lcmp]
  | cons x xs ih =>
    intro b
    cases b with
    | nil => simp [lcmp]
    | cons y ys =>
      simp only [lcmp]
      rcases h : ccmp x y with hc | hc | hc
      · simp only []
        constructor
        · intro h2; exact absurd h2 (by simp)
        · intro h2
          obtain ⟨h3, _⟩ := List.cons.inj h2
          rw [h3] at h
          rw [ccmp_eq_iff.mpr rfl] at h
          exact absurd h (by simp)
      · rw [ccmp_eq_iff.mp h]
        simp [ih]
      · simp only []
        constructor
        · intro h2; exact absurd h2 (by simp)
        · intro h2
          obtain ⟨h3, _⟩ := List.cons.inj h2
          rw [h3] at h
          rw [ccmp_eq_iff.mpr rfl] at h
          exact absurd h (by simp)

/-- Unfolded characterization of `lcmp` on two nonempty lists being `.lt`. -/
theorem lcmp_cons_lt_iff {x y : Char} {xs ys : List Char} :
    lcmp (x :: xs) (y :: ys) = .lt ↔
      x.toNat < y.toNat ∨ (x = y ∧ lcmp xs ys = .lt) := by
  simp only [lcmp]
  rcases h : ccmp x y with h1 | h1 | h1
  · simp [ccmp_lt_iff.mp h]
  · have e := ccmp_eq_iff.mp h
    subst e
    simp
  · have hg : ¬ x.toNat < y.toNat := by
      have := ccmp_gt_iff.mp h
      omega
    have hne : x ≠ y := by
      intro e
      subst e
      rw [ccmp_eq_iff.mpr rfl] at h
      exact absurd h (by simp)
    simp [hg, hne]

theorem lcmp_trans : ∀ {a b c : List Char},
    lcmp a b = .lt → lcmp b c = .lt → lcmp a c = .lt := by
  intro a
  induction a with
  | nil =>
    intro b c hab hbc
    cases b with
    | nil => exact absurd hab (by simp [lcmp])
    | cons y ys =>
      cases c with
      | nil => exact absurd hbc (by simp [lcmp])
      | cons z zs => simp [lcmp]
  | cons x xs ih =>
    intro b c hab hbc
    cases b with
    | nil => exact absurd hab (by simp [lcmp])
    | cons y ys =>
      cases c with
      | nil => exact absurd hbc (by simp [lcmp])
      | cons z zs =>
        rw [lcmp_cons_lt_iff] at hab hbc ⊢
        rcases hab with h1 | ⟨e1, h1⟩
        · rcases hbc with h2 | ⟨e2, h2⟩
          · exact Or.inl (Nat.lt_trans h1 h2)
          · exact Or.inl (e2 ▸ h1)
        · rcases hbc with h2 | ⟨e2, h2⟩
          · exact Or.inl (e1 ▸ h2)
          · exact Or.inr ⟨e1.trans e2, ih h1 h2⟩

theorem ocmp_eq_iff : ∀ {a b : Option (List Char)}, ocmp a b = .eq ↔ a = b := by
  intro a b
  cases a <;> cases b <;> simp [ocmp, lcmp_eq_iff]

theorem ocmp_trans : ∀ {a b c : Option (List Char)},
    ocmp a b = .lt → ocmp b c = .lt → ocmp a c = .lt := by
  intro a b c hab hbc
  cases a with
  | none => cases b <;> simp [ocmp] at hab
  | some x =>
    cases b with
    | none => cases c <;> simp [ocmp] at hbc
    | some y =>
      cases c with
      | none => simp [ocmp]
      | some z =>
        simp only [ocmp] at hab hbc ⊢
        exact lcmp_trans hab hbc

/-- Unfolded characterization of `Version.cmp _ _ = .lt`. -/
theorem version_cmp_lt_iff {a b : Version} :
    Version.cmp a b = .lt ↔
      a.major < b.major ∨ (a.major = b.major ∧
        (a.minor < b.minor ∨ (a.minor = b.minor ∧
          (a.patch < b.patch ∨ (a.patch = b.patch ∧
            ocmp a.pre_release b.pre_release = .lt))))) := by
  unfold Version.cmp
  rcases h1 : compare a.major b.major with hh | hh | hh
  · simp [Nat.compare_eq_lt.mp h1]
  · have e1 := Nat.compare_eq_eq.mp h1
    rcases h2 : compare a.minor b.minor with hh | hh | hh
    · simp [e1, Nat.compare_eq_lt.mp h2]
    · have e2 := Nat.compare_eq_eq.mp h2
      rcases h3 : compare a.patch b.patch with hh | hh | hh
      · simp [e1, e2, Nat.compare_eq_lt.mp h3]
      · have e3 := Nat.compare_eq_eq.mp h3
        simp [e1, e2, e3]
      · have e3 := Nat.compare_eq_gt.mp h3
        simp [e1, e2, Nat.lt_irrefl, Nat.lt_asymm e3, Nat.ne_of_gt e3]
    · have e2 := Nat.compare_eq_gt.mp h2
      simp [e1, Nat.lt_asymm e2, Nat.ne_of_gt e2]
  · have e1 := Nat.compare_eq_gt.mp h1
    simp [Nat.lt_asymm e1, Nat.ne_of_gt e1]

/-- `Version.cmp` is `.eq` exactly on pairs the Rust `PartialEq` calls
equal. -/
theorem version_eqb_iff_cmp_eq {a b : Version} :
    Version.eqb a b = true ↔ Version.cmp a b = .eq := by
  unfold Version.eqb Version.cmp
  rcases h1 : compare a.major b.major with hh | hh | hh
  · have := Nat.compare_eq_lt.mp h1
    simp [Nat.ne_of_lt this]
  · have e1 := Nat.compare_eq_eq.mp h1
    rcases h2 : compare a.minor b.minor with hh | hh | hh
    · have := Nat.compare_eq_lt.mp h2
      simp [e1, Nat.ne_of_lt this]
    · have e2 := Nat.compare_eq_eq.mp h2
      rcases h3 : compare a.patch b.patch with hh | hh | hh
      · have := Nat.compare_eq_lt.mp h3
        simp [e1, e2, Nat.ne_of_lt this]
      · have e3 := Nat.compare_eq_eq.mp h3
        simp [e1, e2, e3, ocmp_eq_iff]
      · have := Nat.compare_eq_gt.mp h3
        simp [e1, e2, Nat.ne_of_gt this]
    · have := Nat.compare_eq_gt.mp h2
      simp [e1, Nat.ne_of_gt this]
  · have := Nat.compare_eq_gt.mp h1
    simp [Nat.ne_of_gt this]

/-- `Version.cmp` is transitive in its `.lt` value. -/
theorem version_cmp_trans {a b c : Version} :
    Version.cmp a b = .lt → Version.cmp b c = .lt → Version.cmp a c = .lt := by
  intro hab hbc
  rw [version_cmp_lt_iff] at hab hbc ⊢
  rcases hab with h | ⟨e1, h⟩
  · rcases hbc with h2 | ⟨e2, _⟩
    · exact Or.inl (Nat.lt_trans h h2)
    · exact Or.inl (e2 ▸ h)
  · rcases hbc with h2 | ⟨e2, h3⟩
    · exact Or.inl (e1 ▸ h2)
    · refine Or.inr ⟨e1.trans e2, ?_⟩
      rcases h with h | ⟨f1, h⟩
      · rcases h3 with h4 | ⟨f2, _⟩
        · exact Or.inl (Nat.lt_trans h h4)
        · exact Or.inl (f2 ▸ h)
      · rcases h3 with h4 | ⟨f2, h5⟩
        · exact Or.inl (f1 ▸ h4)
        · refine Or.inr ⟨f1.trans f2, ?_⟩
          rcases h with h | ⟨g1, h⟩
          · rcases h5 with h6 | ⟨g2, _⟩
            · exact Or.inl (Nat.lt_trans h h6)
            · exact Or.inl (g2 ▸ h)
          · rcases h5 with h6 | ⟨g2, h7⟩
            · exact Or.inl (g1 ▸ h6)
            · exact Or.inr ⟨g1.trans g2, ocmp_trans h h7⟩

/-- Rust `str::trim` on the char-list model. -/
def trim (s : List Char) : List Char :=
  ((s.dropWhile Char.isWhitespace).reverse.dropWhile Char.isWhitespace).reverse

/-- Character-wise lowercasing (`str::to_lowercase`). -/
def lower (s : List Char) : List Char := s.map Char.toLower

/-- Index of the first occurrence of `pat` as a contiguous substring of `s`
(Rust `str::find` with a string pattern), `none` when `pat` never occurs. -/
def firstOccIdx (pat : List Char) : List Char → Option Nat
  | [] => if pat.isEmpty then some 0 else none
  | a :: t =>
    if pat.isPrefixOf (a :: t) then some 0
    else (firstOccIdx pat t).map (· + 1)

/-- Rust `str::strip_prefix`. -/
def stripPfx (p s : List Char) : Option (List Char) :=
  if p.isPrefixOf s then some (s.drop p.length) else none

/-- Rust `str::parse::<u64>()`: optional leading `+`, one or more ASCII
digits, values of `2^64` or more rejected as overflow. -/
def parseU64 (s : List Char) : Option Nat :=
  let digits := match s with
    | '+' :: rest => rest
    | _ => s
  if digits.isEmpty || !(digits.all Char.isDigit) then none
  else
    let n := digits.foldl (fun acc c => acc * 10 + (c.toNat - 48)) 0
    if n < 2 ^ 64 then some n else none

/-- The pre-release marker patterns of `parse_prerelease`, in source order. -/
def prePatterns : List (List Char) :=
  ["dev".data, "post".data, "alpha".data, "beta".data, "rc".data,
   "a".data, "b".data, "c".data, "-".data]

/-- The pattern loop of `parse_prerelease`: for each pattern in order, find
its first occurrence in the lowercased string; when that occurrence is at a
nonzero index, split the original string there (everything from the marker
onward becomes the tag); otherwise move to the next pattern. -/
def prereleaseLoop : List (List Char) → List Char → List Char × Option (List Char)
  | [], s => (s, none)
  | p :: ps, s =>
    match firstOccIdx p (lower s) with
    | some idx =>
      if 0 < idx then (s.take idx, some (s.drop idx)) else prereleaseLoop ps s
    | none => prereleaseLoop ps s

/-- `parse_prerelease` from `core/src/version.rs`. -/
def parse_prerelease (s : List Char) : List Char × Option (List Char) :=
  prereleaseLoop prePatterns s

/-- `Version::from_str` from `core/src/version.rs`; `none` models
`Err(InvalidVersion)`. -/
def Version.from_str (s0 : List Char) : Option Version :=
  let s := trim s0
  let pr := match firstOccIdx [ '+' ] s with
    | some idx => (s.take idx, some (s.drop (idx + 1)))
    | none => (s, none)
  let bp := parse_prerelease pr.1
  let parts := bp.1.splitOn '.'
  match parts.head?.bind parseU64 with
  | none => none
  | some major =>
    some { major := major,
           minor := (parts[1]?.bind parseU64).getD 0,
           patch := (parts[2]?.bind parseU64).getD 0,
           pre_release := bp.2,
           localSeg := pr.2,
           original := s }

/-- `VersionSpec` from `core/src/version.rs`. -/
inductive VersionSpec where
  | Pinned (v : Version)
  | Minimum (v : Version)
  | Maximum (v : Version)
  | GreaterThan (v : Version)
  | LessThan (v : Version)
  | Range (mn mx : Version)
  | Caret (v : Version)
  | Tilde (v : Version)
  | Compatible (v : Version)
  | Wildcard (pfx pat : List Char)
  | NotEqual (v : Version)
  | Complex (s : List Char)
  | Any
deriving DecidableEq

/-- `VersionSpec::satisfies`. -/
def VersionSpec.satisfies (spec : VersionSpec) (version : Version) : Bool :=
  match spec with
  | .Any => true
  | .Pinned v => Version.eqb version v
  | .Minimum v => Version.geb version v
  | .Maximum v => Version.leb version v
  | .GreaterThan v => Version.gtb version v
  | .LessThan v => Version.ltb version v
  | .Range mn mx => Version.geb version mn && Version.ltb version mx
  | .Caret v =>
    if Version.ltb version v then false
    else if v.major == 0 then
      if v.minor == 0 then
        version.major == 0 && version.minor == 0 && version.patch == v.patch
      else
        version.major == 0 && version.minor == v.minor
    else
      version.major == v.major
  | .Tilde v =>
    Version.geb version v && version.major == v.major && version.minor == v.minor
  | .Compatible v =>
    Version.geb version v && version.major == v.major && version.minor == v.minor
  | .Wildcard pfx _ => pfx.isPrefixOf version.original
  | .NotEqual v => !(Version.eqb version v)
  | .Complex _ => true

/-- `VersionSpec::base_version`. -/
def VersionSpec.base_version : VersionSpec → Option Version
  | .Pinned v | .Minimum v | .Maximum v | .GreaterThan v | .LessThan v
  | .Caret v | .Tilde v | .Compatible v | .NotEqual v => some v
  | .Range mn _ => some mn
  | .Wildcard _ _ | .Complex _ | .Any => none

/-- `VersionSpec::max_major`. -/
def VersionSpec.max_major : VersionSpec → Option Nat
  | .Range _ mx => some mx.major
  | .Caret v => some v.major
  | .LessThan v | .Maximum v => some v.major
  | .Minimum v | .GreaterThan v | .Pinned v | .Compatible v | .Tilde v => some v.major
  | .NotEqual v => some v.major
  | .Wildcard pfx _ => (pfx.splitOn '.').head?.bind parseU64
  | .Complex _ | .Any => none

/-- `VersionSpec::with_version` — the spec's "retarget" operation. -/
def VersionSpec.with_version (spec : VersionSpec) (new_version : Version) : VersionSpec :=
  match spec with
  | .Pinned _ => .Pinned new_version
  | .Minimum _ => .Minimum new_version
  | .Maximum _ => .Maximum new_version
  | .GreaterThan _ => .GreaterThan new_version
  | .LessThan _ => .LessThan new_version
  | .Range _ mx =>
    if Version.geb new_version mx then
      .Range new_version (Version.new (new_version.major + 1) 0 0)
    else
      .Range new_version mx
  | .Caret _ => .Caret new_version
  | .Tilde _ => .Tilde new_version
  | .Compatible _ => .Compatible new_version
  | .Wildcard _ pat =>
    .Wildcard (natChars new_version.major ++ [ '.' ] ++ natChars new_version.minor) pat
  | .NotEqual _ => .NotEqual new_version
  | .Complex s => .Complex s
  | .Any => .Any

/-- Rust `str::replace(pat, "")`: remove every occurrence of `pat`,
scanning left to right without overlap. -/
def removeAll (pat : List Char) : List Char → List Char
  | [] => []
  | a :: as =>
    if h : pat ≠ [] ∧ pat.isPrefixOf (a :: as) then
      removeAll pat (List.drop pat.length (a :: as))
    else
      a :: removeAll pat as
termination_by l => l.length
decreasing_by
  · have hlen : 0 < pat.length := List.length_pos.mpr h.1
    simp [List.length_drop]
    omega
  · simp

/-- `VersionSpec::parse` from `core/src/version.rs`; `none` models `Err`. -/
def VersionSpec.parse (s0 : List Char) : Option VersionSpec :=
  let s := trim s0
  if s.isEmpty || s == [ '*' ] then some .Any
  else
    match stripPfx [ '^' ] s with
    | some rest => (Version.from_str rest).map .Caret
    | none =>
    match stripPfx [ '~', '=' ] s with
    | some rest => (Version.from_str rest).map .Compatible
    | none =>
    match stripPfx [ '~' ] s with
    | some rest => (Version.from_str rest).map .Tilde
    | none =>
    if s.contains '*' then
      match stripPfx [ '=', '=' ] s with
      | some pfxPart => some (.Wildcard (removeAll [ '*' ] (removeAll [ '.', '*' ] pfxPart)) s)
      | none => some (.Wildcard (removeAll [ '*' ] (removeAll [ '.', '*' ] s)) s)
    else if s.contains ',' then
      let parts := s.splitOn ','
      if parts.length == 2 then
        match stripPfx [ '>', '=' ] (trim (parts.getD 0 [])),
              stripPfx [ '<' ] (trim (parts.getD 1 [])) with
        | some minS, some maxS =>
          match Version.from_str minS, Version.from_str maxS with
          | some mn, some mx => some (.Range mn mx)
          | _, _ => none
        | _, _ => some (.Complex s)
      else some (.Complex s)
    else
      match stripPfx [ '=', '=' ] s with
      | some rest => (Version.from_str rest).map .Pinned
      | none =>
      match stripPfx [ '>', '=' ] s with
      | some rest => (Version.from_str rest).map .Minimum
      | none =>
      match stripPfx [ '<', '=' ] s with
      | some rest => (Version.from_str rest).map .Maximum
      | none =>
      match stripPfx [ '!', '=' ] s with
      | some rest => (Version.from_str rest).map .NotEqual
      | none =>
      match stripPfx [ '>' ] s with
      | some rest => (Version.from_str rest).map .GreaterThan
      | none =>
      match stripPfx [ '<' ] s with
      | some rest => (Version.from_str rest).map .LessThan
      | none =>
      match Version.from_str s with
      | some v => some (.Pinned v)
      | none => some (.Complex s)

/-- `Dependency` (from `src/src/parsers/mod.rs`). -/
structure Dependency where
  name : List Char
  version_spec : VersionSpec
  source_file : List Char
  line_number : Nat
  original_line : List Char
deriving DecidableEq

/-- `PackageInfo` (from `src/src/pypi.rs`). -/
structure PackageInfo where
  name : List Char
  versions : List Version
  latest : Version
  latest_stable : Option Version
deriving DecidableEq

/-- The CLI flags consulted by the resolver (`src/src/cli.rs`): only
`minor` (`-m`) and `force_latest` (`-f`) influence resolution. -/
structure Args where
  minor : Bool
  force_latest : Bool
deriving DecidableEq

/-- The default CLI mode: neither `-m` nor `-f`. -/
def defaultArgs : Args := { minor := false, force_latest := false }

/-- `UpdateSeverity` from `src/src/resolver.rs`. -/
inductive UpdateSeverity where
  | Major
  | Minor
  | Patch
deriving DecidableEq

/-- `DependencyCheck` from `src/src/resolver.rs`. -/
structure DependencyCheck where
  dependency : Dependency
  installed : Option Version
  in_range : Option Version
  latest : Version
  update_to : Option VersionSpec
deriving DecidableEq

/-- `DependencyCheck::has_update`. -/
def DependencyCheck.has_update (c : DependencyCheck) : Bool := c.update_to.isSome

/-- `DependencyCheck::update_severity` from `src/src/resolver.rs`. -/
def DependencyCheck.update_severity (c : DependencyCheck) : Option UpdateSeverity :=
  match (match c.installed with
         | some i => some i
         | none => c.dependency.version_spec.base_version) with
  | none => none
  | some current =>
    match c.update_to.bind VersionSpec.base_version with
    | none => none
    | some target =>
      if current.major < target.major then some .Major
      else if current.minor < target.minor then some .Minor
      else if current.patch < target.patch then some .Patch
      else none

/-- Rust `Iterator::max` over versions: maximum under `Version.cmp`,
keeping the last of several equal maxima. -/
def listMax (l : List Version) : Option Version :=
  l.foldl (fun acc v =>
    match acc with
    | none => some v
    | some m => if Version.cmp v m = .lt then some m else some v) none

/-- `DependencyResolver::calculate_in_range`. -/
def calculate_in_range (spec : VersionSpec) (available_versions : List Version)
    (installed : Option Version) : Option Version :=
  let mm := spec.max_major
  listMax (available_versions.filter fun v =>
    if !(spec.satisfies v) then false
    else
      match spec with
      | .Minimum base | .GreaterThan base =>
        let target_major := match installed with
          | some inst => Nat.max base.major inst.major
          | none => base.major
        v.major == target_major
      | _ =>
        match mm with
        | some mx => decide (v.major ≤ mx)
        | none => true)

/-- `DependencyResolver::calculate_latest_same_major`. -/
def calculate_latest_same_major (spec : VersionSpec) (available_versions : List Version)
    (installed : Option Version) : Option Version :=
  match spec.base_version with
  | none => none
  | some base =>
    let target_major := match spec with
      | .Minimum _ | .GreaterThan _ =>
        match installed with
        | some inst => Nat.max base.major inst.major
        | none => base.major
      | _ => base.major
    listMax (available_versions.filter fun v => v.major == target_major)

/-- `DependencyResolver::calculate_update_to`. -/
def calculate_update_to (args : Args) (current_spec : VersionSpec)
    (in_range : Option Version) (latest : Version)
    (latest_same_major : Option Version) (installed : Option Version) :
    Option VersionSpec :=
  match current_spec with
  | .Pinned current_version =>
    if args.force_latest then
      if !(Version.eqb current_version latest) then some (.Pinned latest) else none
    else if args.minor then
      match latest_same_major with
      | some target =>
        if !(Version.eqb current_version target) then some (.Pinned target) else none
      | none => none
    else none
  | _ =>
    match (if args.force_latest then some latest else in_range) with
    | none => none
    | some target_version =>
      let needs_update := match current_spec.base_version with
        | some base => !(Version.eqb base target_version)
        | none => true
      if !needs_update then none
      else
        match installed with
        | some inst =>
          if Version.ltb target_version inst then none
          else some (current_spec.with_version target_version)
        | none => some (current_spec.with_version target_version)

/-- `DependencyResolver::resolve`. -/
def resolve (args : Args) (dependency : Dependency) (package_info : PackageInfo)
    (installed : Option Version) : DependencyCheck :=
  let latest := package_info.latest
  let in_range := calculate_in_range dependency.version_spec package_info.versions installed
  let latest_same_major :=
    calculate_latest_same_major dependency.version_spec package_info.versions installed
  let update_to :=
    calculate_update_to args dependency.version_spec in_range latest latest_same_major installed
  { dependency := dependency,
    installed := installed,
    in_range := in_range,
    latest := latest,
    update_to := update_to }

/-! ### Claim-side rules (stated from the specification's words, for
refinement comparisons against the source definitions above) -/

/-- The conservative-update rule exactly as the spec's §4.3 step 2 (claim C1)
states it: `current = installed ?? baseVersion(spec)`; no current means no
target; an in-range result strictly greater than current retargets the spec
at it; otherwise a latest strictly greater than current retargets the spec at
latest; otherwise no target. -/
def claimStep2Rule (spec : VersionSpec) (in_range : Option Version)
    (latest : Version) (installed : Option Version) : Option VersionSpec :=
  match (match installed with | some i => some i | none => spec.base_version) with
  | none => none
  | some current =>
    match in_range with
    | some ir =>
      if Version.gtb ir current then some (spec.with_version ir)
      else if Version.gtb latest current then some (spec.with_version latest)
      else none
    | none =>
      if Version.gtb latest current then some (spec.with_version latest)
      else none

/-- The conservative (default-mode) update rule `src/src/resolver.rs` actually
implements: a Pinned spec never updates; otherwise the candidate target is the
in-range result, and the spec is retargeted at it unless the spec's base
version already equals the target or the target is strictly below the
installed version. -/
def conservativeRule (spec : VersionSpec) (in_range : Option Version)
    (installed : Option Version) : Option VersionSpec :=
  match spec with
  | .Pinned _ => none
  | _ =>
    match in_range with
    | none => none
    | some target =>
      if (match spec.base_version with
          | some base => Version.eqb base target
          | none => false) then none
      else if (match installed with
               | some inst => Version.ltb target inst
               | none => false) then none
      else some (spec.with_version target)

/-- The in-range rule exactly as claim C5 states it: the maximum available
version satisfying the spec, restricted — for the unbounded Minimum and
GreaterThan specs only — to the single target major
`max(base major, installed major)`. -/
def claimInRange (spec : VersionSpec) (avail : List Version)
    (installed : Option Version) : Option Version :=
  listMax (avail.filter fun v =>
    spec.satisfies v &&
    (match spec with
     | .Minimum base | .GreaterThan base =>
       v.major == (match installed with
                   | some inst => Nat.max base.major inst.major
                   | none => base.major)
     | _ => true))

/-- Claim C5 amended: bounded specs are additionally restricted to majors no
greater than the spec's `max_major` when it is defined. -/
def claimInRangeBounded (spec : VersionSpec) (avail : List Version)
    (installed : Option Version) : Option Version :=
  listMax (avail.filter fun v =>
    spec.satisfies v &&
    (match spec with
     | .Minimum base | .GreaterThan base =>
       v.major == (match installed with
                   | some inst => Nat.max base.major inst.major
                   | none => base.major)
     | _ => match spec.max_major with
            | some mx => decide (v.major ≤ mx)
            | none => true))

/-- The marker-split rule exactly as claim C3 states it: scanning the markers
in priority order, split at the first one whose first occurrence in the
lowercased string is at a nonzero offset; the tag is the verbatim tail of the
original string from that offset. -/
def specMarkerSplit (s : List Char) : List Char × Option (List Char) :=
  match prePatterns.findSome? (fun p =>
    match firstOccIdx p (lower s) with
    | some i => if 0 < i then some i else none
    | none => none) with
  | some i => (s.take i, some (s.drop i))
  | none => (s, none)

/-- Constructor tag of a `VersionSpec`, for shape-preservation statements. -/
def variantTag : VersionSpec → Nat
  | .Pinned _ => 0
  | .Minimum _ => 1
  | .Maximum _ => 2
  | .GreaterThan _ => 3
  | .LessThan _ => 4
  | .Range _ _ => 5
  | .Caret _ => 6
  | .Tilde _ => 7
  | .Compatible _ => 8
  | .Wildcard _ _ => 9
  | .NotEqual _ => 10
  | .Complex _ => 11
  | .Any => 12

/-- Whether a spec is the Pinned variant. -/
def isPinned : VersionSpec → Bool
  | .Pinned _ => true
  | _ => false

/-- The characters that begin every recognized version-spec operator. -/
def opChars : List Char := [ '^', '~', '=', '>', '<', '!' ]

/-! ### Helper lemmas -/

theorem version_eqb_iff {a b : Version} :
    Version.eqb a b = true ↔
      a.major = b.major ∧ a.minor = b.minor ∧ a.patch = b.patch
        ∧ a.pre_release = b.pre_release := by
  simp [Version.eqb, and_assoc]

theorem version_eqb_trans_right {a b c : Version}
    (hab : Version.eqb a c = true) (hbc : Version.eqb b c = true) :
    Version.eqb a b = true := by
  rw [version_eqb_iff] at hab hbc ⊢
  obtain ⟨h1, h2, h3, h4⟩ := hab
  obtain ⟨g1, g2, g3, g4⟩ := hbc
  exact ⟨h1.trans g1.symm, h2.trans g2.symm, h3.trans g3.symm, h4.trans g4.symm⟩

/-- In the default mode, `calculate_update_to` coincides with
`conservativeRule`. -/
theorem update_to_default (spec : VersionSpec) (ir : Option Version)
    (latest : Version) (lsm installed : Option Version) :
    calculate_update_to defaultArgs spec ir latest lsm installed
      = conservativeRule spec ir installed := by
  cases spec <;>
    simp only [calculate_update_to, conservativeRule, defaultArgs,
      VersionSpec.base_version, Bool.false_eq_true, if_false] <;>
    cases ir <;>
    try rfl
  all_goals
    rename_i t
    simp only [Bool.not_not]
    cases installed <;> simp only [] <;> split <;> simp_all

/-- In any mode, a `some` answer of `calculate_update_to` for a non-Pinned
spec retargets the spec at a target no lower than the installed version. -/
theorem update_to_target_not_below (args : Args) (spec : VersionSpec)
    (ir : Option Version) (latest : Version) (lsm : Option Version)
    (inst : Version) (s' : VersionSpec)
    (hnp : isPinned spec = false)
    (h : calculate_update_to args spec ir latest lsm (some inst) = some s') :
    ∃ t, s' = spec.with_version t ∧ Version.geb t inst = true := by
  cases spec
  case Pinned v => simp [isPinned] at hnp
  all_goals
    simp only [calculate_update_to, VersionSpec.base_version] at h
    cases hopt : (if args.force_latest then some latest else ir) with
    | none =>
      simp only [hopt] at h
      exact absurd h (by simp)
    | some t =>
      simp only [hopt] at h
      split at h
      · exact absurd h (by simp)
      · split at h
        · exact absurd h (by simp)
        · rename_i hlt
          refine ⟨t, (Option.some.inj h).symm, ?_⟩
          simp only [Version.geb, Version.ltb] at hlt ⊢
          simp_all

/-- `prereleaseLoop` computes the priority-order first-marker split. -/
theorem prereleaseLoop_eq (ps : List (List Char)) (s : List Char) :
    prereleaseLoop ps s =
      (match ps.findSome? (fun p =>
        match firstOccIdx p (lower s) with
        | some i => if 0 < i then some i else none
        | none => none) with
      | some i => (s.take i, some (s.drop i))
      | none => (s, none)) := by
  induction ps with
  | nil => rfl
  | cons p ps ih =>
    simp only [prereleaseLoop, List.findSome?_cons]
    cases hidx : firstOccIdx p (lower s) with
    | none => exact ih
    | some i =>
      by_cases hpos : 0 < i
      · simp [hpos]
      · simp only [hpos, if_false]
        exact ih

/-- A one-character prefix failing means any longer prefix starting with
that character fails, so `stripPfx` yields `none`. -/
theorem stripPfx_none_of_head (c : Char) (rest s : List Char)
    (h : [c].isPrefixOf s = false) : stripPfx (c :: rest) s = none := by
  unfold stripPfx
  cases s with
  | nil => simp [List.isPrefixOf]
  | cons a t =>
    simp only [List.isPrefixOf] at h ⊢
    simp only [List.isPrefixOf_nil_left, Bool.and_true] at h
    simp [h]

/-! ### Claim theorems -/

/-- C6 (confirmed): `Caret(b).satisfies(v)` holds exactly when `v ≥ b` and,
if `b.major > 0`, `v.major = b.major`; if `b.major = 0` and `b.minor > 0`,
`v.major = 0` and `v.minor = b.minor`; and if `b.major = b.minor = 0`,
`v.major = 0`, `v.minor = 0` and `v.patch = b.patch`. -/
theorem caret_satisfies_characterization (b v : Version) :
    (VersionSpec.Caret b).satisfies v =
      (Version.geb v b &&
        (if 0 < b.major then v.major == b.major
         else if 0 < b.minor then v.major == 0 && v.minor == b.minor
         else v.major == 0 && v.minor == 0 && v.patch == b.patch)) := by
  have hg : Version.geb v b = !(Version.ltb v b) := rfl
  rw [hg]
  simp only [VersionSpec.satisfies]
  cases hlt : Version.ltb v b <;> simp
  cases hbm : b.major with
  | zero => cases hbn : b.minor <;> simp
  | succ k => simp

/-- C9 (confirmed): `with_version` (retarget) preserves the constraint's
variant, and returns Complex and Any specs unchanged. -/
theorem with_version_preserves_shape (spec : VersionSpec) (v : Version)
    (s : List Char) :
    variantTag (spec.with_version v) = variantTag spec
    ∧ (VersionSpec.Complex s).with_version v = VersionSpec.Complex s
    ∧ VersionSpec.Any.with_version v = VersionSpec.Any := by
  refine ⟨?_, rfl, rfl⟩
  cases spec <;> try rfl
  case Range mn mx =>
    simp only [VersionSpec.with_version]
    cases hgeb : Version.geb v mx <;> simp [hgeb, variantTag]

/-- C8 (confirmed): version comparison is a total order consistent with the
defined equality — exactly one of `a < b`, `a == b`, `a > b` holds and `<` is
transitive; at an equal `major.minor.patch` triple a tag-free version is
strictly greater than a tagged one, and two tags compare lexically. -/
theorem version_order_total_trans (a b c : Version) :
    ((Version.cmp a b = .lt ∧ Version.eqb a b = false ∧ Version.cmp a b ≠ .gt)
      ∨ (Version.eqb a b = true ∧ Version.cmp a b ≠ .lt ∧ Version.cmp a b ≠ .gt)
      ∨ (Version.cmp a b = .gt ∧ Version.eqb a b = false ∧ Version.cmp a b ≠ .lt))
    ∧ (Version.cmp a b = .lt → Version.cmp b c = .lt → Version.cmp a c = .lt)
    ∧ (a.major = b.major → a.minor = b.minor → a.patch = b.patch →
        a.pre_release = none → ∀ t, b.pre_release = some t →
          Version.cmp a b = .gt)
    ∧ (a.major = b.major → a.minor = b.minor → a.patch = b.patch →
        ∀ ta tb, a.pre_release = some ta → b.pre_release = some tb →
          Version.cmp a b = lcmp ta tb) := by
  have hself : ∀ n : Nat, compare n n = .eq := fun n => Nat.compare_eq_eq.mpr rfl
  refine ⟨?_, version_cmp_trans, ?_, ?_⟩
  · rcases h : Version.cmp a b with _ | _ | _
    · refine Or.inl ⟨rfl, ?_, by simp⟩
      cases he : Version.eqb a b
      · rfl
      · exact Ordering.noConfusion (h.symm.trans (version_eqb_iff_cmp_eq.mp he))
    · exact Or.inr (Or.inl ⟨version_eqb_iff_cmp_eq.mpr h, by simp, by simp⟩)
    · refine Or.inr (Or.inr ⟨rfl, ?_, by simp⟩)
      cases he : Version.eqb a b
      · rfl
      · exact Ordering.noConfusion (h.symm.trans (version_eqb_iff_cmp_eq.mp he))
  · intro h1 h2 h3 h4 t ht
    unfold Version.cmp
    rw [h1, h2, h3, h4, ht]
    simp [hself, ocmp]
  · intro h1 h2 h3 ta tb ha hb
    unfold Version.cmp
    rw [h1, h2, h3, ha, hb]
    simp [hself, ocmp]

/-- C5 (amended; theorem for the corrected claim): the in-range result is the
maximum available version that satisfies the spec, where Minimum/GreaterThan
specs are restricted to the target major `max(base major, installed major)`
and every other spec is restricted to majors at most the spec's `max_major`
when that is defined. -/
theorem in_range_eq_bounded_rule (spec : VersionSpec) (avail : List Version)
    (installed : Option Version) :
    calculate_in_range spec avail installed
      = claimInRangeBounded spec avail installed := by
  show (let mm := spec.max_major
    listMax (avail.filter fun v =>
      if !(spec.satisfies v) then false
      else
        match spec with
        | .Minimum base | .GreaterThan base =>
          let target_major := match installed with
            | some inst => Nat.max base.major inst.major
            | none => base.major
          v.major == target_major
        | _ =>
          match mm with
          | some mx => decide (v.major ≤ mx)
          | none => true)) = _
  simp only []
  congr 1
  apply List.filter_congr
  intro v _
  cases hs : spec.satisfies v <;> simp [hs]

/-- C1 (amended; theorem for the corrected claim): in the default
conservative mode the resolver's rewritten spec follows `conservativeRule`:
Pinned specs never update, otherwise the target is the in-range result and
the spec is retargeted at it unless the spec's base version equals the
target or the target is strictly below the installed version; `latest` is
never used as a fallback target. -/
theorem resolve_conservative_update (dep : Dependency) (pkg : PackageInfo)
    (installed : Option Version) :
    (resolve defaultArgs dep pkg installed).update_to
      = conservativeRule dep.version_spec
          (calculate_in_range dep.version_spec pkg.versions installed) installed :=
  update_to_default dep.version_spec
    (calculate_in_range dep.version_spec pkg.versions installed) pkg.latest
    (calculate_latest_same_major dep.version_spec pkg.versions installed) installed

/-- C10 (confirmed): for a non-Pinned spec, whenever an installed version is
supplied and `resolve` suggests an update, the rewritten spec is the
original spec retargeted at a version that is greater than or equal to the
installed version. -/
theorem resolve_no_downgrade (args : Args) (dep : Dependency) (pkg : PackageInfo)
    (inst : Version) (s' : VersionSpec)
    (hnp : isPinned dep.version_spec = false)
    (h : (resolve args dep pkg (some inst)).update_to = some s') :
    ∃ t, s' = dep.version_spec.with_version t ∧ Version.geb t inst = true :=
  update_to_target_not_below args dep.version_spec
    (calculate_in_range dep.version_spec pkg.versions (some inst)) pkg.latest
    (calculate_latest_same_major dep.version_spec pkg.versions (some inst))
    inst s' hnp h

/-- C7 (confirmed): whenever the current version (installed, else the spec's
base) and the target's base version both exist, `update_severity` is the
three-tier short-circuit — Major on a greater target major, else Minor on a
greater minor, else Patch on a greater patch, else none — so a greater
target major forces Major irrespective of the minor and patch deltas. -/
theorem update_severity_three_tier (c : DependencyCheck) (cur tgt : Version)
    (hc : (match c.installed with
           | some i => some i
           | none => c.dependency.version_spec.base_version) = some cur)
    (ht : c.update_to.bind VersionSpec.base_version = some tgt) :
    c.update_severity =
      (if cur.major < tgt.major then some UpdateSeverity.Major
       else if cur.minor < tgt.minor then some UpdateSeverity.Minor
       else if cur.patch < tgt.patch then some UpdateSeverity.Patch
       else none)
    ∧ (cur.major < tgt.major → c.update_severity = some UpdateSeverity.Major) := by
  have h1 : c.update_severity =
      (if cur.major < tgt.major then some UpdateSeverity.Major
       else if cur.minor < tgt.minor then some UpdateSeverity.Minor
       else if cur.patch < tgt.patch then some UpdateSeverity.Patch
       else none) := by
    unfold DependencyCheck.update_severity
    rw [hc, ht]
  refine ⟨h1, fun hmaj => ?_⟩
  rw [h1]
  simp [hmaj]

/-- C4 (amended; theorem for the corrected claim): if the installed version
equals the package's latest, the in-range result is that same version, and
additionally the spec's base version already equals it, then the default-mode
resolver suggests no update. -/
theorem resolve_idempotent_at_base (dep : Dependency) (pkg : PackageInfo)
    (inst r b : Version)
    (hinst : Version.eqb inst pkg.latest = true)
    (hir : calculate_in_range dep.version_spec pkg.versions (some inst) = some r)
    (hr : Version.eqb r pkg.latest = true)
    (hb : dep.version_spec.base_version = some b)
    (hbl : Version.eqb b pkg.latest = true) :
    (resolve defaultArgs dep pkg (some inst)).update_to = none := by
  have hbr : Version.eqb b r = true := version_eqb_trans_right hbl hr
  have h0 : (resolve defaultArgs dep pkg (some inst)).update_to
      = conservativeRule dep.version_spec
          (calculate_in_range dep.version_spec pkg.versions (some inst)) (some inst) :=
    update_to_default dep.version_spec
      (calculate_in_range dep.version_spec pkg.versions (some inst)) pkg.latest
      (calculate_latest_same_major dep.version_spec pkg.versions (some inst)) (some inst)
  rw [h0, hir]
  unfold conservativeRule
  cases hspec : dep.version_spec <;> simp_all [VersionSpec.base_version]

/-- C3 (confirmed): `parse_prerelease` splits at the priority-order first
marker whose first occurrence in the lowercased string is at a nonzero
offset, the tag is the verbatim inclusive tail of the original string, and
`Version::from_str` applies this split to the remainder left of any `+`
metadata suffix of the trimmed input. -/
theorem prerelease_split_rule (s : List Char) :
    parse_prerelease s = specMarkerSplit s
    ∧ (∀ b t, parse_prerelease s = (b, some t) → b ++ t = s)
    ∧ (∀ v, Version.from_str s = some v →
        v.pre_release =
          (parse_prerelease (match firstOccIdx [ '+' ] (trim s) with
            | some idx => (trim s).take idx
            | none => trim s)).2) := by
  have hmain : parse_prerelease s = specMarkerSplit s := by
    unfold parse_prerelease specMarkerSplit
    exact prereleaseLoop_eq prePatterns s
  refine ⟨hmain, ?_, ?_⟩
  · intro b t hbt
    rw [hmain] at hbt
    unfold specMarkerSplit at hbt
    cases hfs : prePatterns.findSome? (fun p =>
        match firstOccIdx p (lower s) with
        | some i => if 0 < i then some i else none
        | none => none) with
    | none =>
      rw [hfs] at hbt
      simp at hbt
    | some i =>
      rw [hfs] at hbt
      simp only [Prod.mk.injEq] at hbt
      obtain ⟨hb, ht⟩ := hbt
      obtain rfl := Option.some.inj ht
      rw [← hb]
      exact List.take_append_drop i s
  · intro v hv
    simp only [Version.from_str] at hv
    cases hpo : firstOccIdx [ '+' ] (trim s) with
    | none =>
      simp only [hpo] at hv
      split at hv
      · exact absurd hv (by simp)
      · obtain rfl := Option.some.inj hv
        simp [hpo]
    | some idx =>
      simp only [hpo] at hv
      split at hv
      · exact absurd hv (by simp)
      · obtain rfl := Option.some.inj hv
        simp [hpo]

/-- C2 (amended; theorem for the corrected claim): constraint parsing never
hard-fails for inputs that begin with none of the operator characters and
contain no comma — it falls back to Wildcard, Pinned or Complex; only a
recognized operator form with an invalid version payload can error. -/
theorem parse_total_without_operator (s : List Char)
    (h1 : ∀ c ∈ opChars, [c].isPrefixOf (trim s) = false)
    (h2 : (trim s).contains ',' = false) :
    (VersionSpec.parse s).isSome = true := by
  have e1 : stripPfx [ '^' ] (trim s) = none :=
    stripPfx_none_of_head _ _ _ (h1 '^' (by simp [opChars]))
  have e2 : stripPfx [ '~', '=' ] (trim s) = none :=
    stripPfx_none_of_head _ _ _ (h1 '~' (by simp [opChars]))
  have e3 : stripPfx [ '~' ] (trim s) = none :=
    stripPfx_none_of_head _ _ _ (h1 '~' (by simp [opChars]))
  have e4 : stripPfx [ '=', '=' ] (trim s) = none :=
    stripPfx_none_of_head _ _ _ (h1 '=' (by simp [opChars]))
  have e5 : stripPfx [ '>', '=' ] (trim s) = none :=
    stripPfx_none_of_head _ _ _ (h1 '>' (by simp [opChars]))
  have e6 : stripPfx [ '<', '=' ] (trim s) = none :=
    stripPfx_none_of_head _ _ _ (h1 '<' (by simp [opChars]))
  have e7 : stripPfx [ '!', '=' ] (trim s) = none :=
    stripPfx_none_of_head _ _ _ (h1 '!' (by simp [opChars]))
  have e8 : stripPfx [ '>' ] (trim s) = none :=
    stripPfx_none_of_head _ _ _ (h1 '>' (by simp [opChars]))
  have e9 : stripPfx [ '<' ] (trim s) = none :=
    stripPfx_none_of_head _ _ _ (h1 '<' (by simp [opChars]))
  simp only [VersionSpec.parse, e1, e2, e3, e4, e5, e6, e7, e8, e9, h2,
    Bool.false_eq_true, if_false]
  split
  · rfl
  · split
    · rfl
    · cases hf : Version.from_str (trim s) <;> simp [hf]

/-! ### Concrete instances for counterexamples and witnesses -/

/-- A pinned `==1.0.0` dependency. -/
def c1dep : Dependency :=
  { name := "a".data, version_spec := .Pinned (Version.new 1 0 0),
    source_file := [], line_number := 1, original_line := [] }

/-- A package with versions 1.0.0 and 1.0.1, latest 1.0.1. -/
def c1pkg : PackageInfo :=
  { name := "a".data, versions := [Version.new 1 0 0, Version.new 1 0 1],
    latest := Version.new 1 0 1, latest_stable := none }

/-- C1 counterexample: for the pinned dependency `==1.0.0` with latest
1.0.1 and no installed version, the default-mode resolver suggests no
update, while the spec's step-2 rule retargets the spec at latest — so the
resolver does not follow the step-2 rule. -/
theorem resolve_step2_counterexample :
    (resolve defaultArgs c1dep c1pkg none).update_to = none
    ∧ claimStep2Rule c1dep.version_spec
        (resolve defaultArgs c1dep c1pkg none).in_range c1pkg.latest none
      = some (VersionSpec.Pinned (Version.new 1 0 1))
    ∧ (resolve defaultArgs c1dep c1pkg none).update_to
      ≠ claimStep2Rule c1dep.version_spec
          (resolve defaultArgs c1dep c1pkg none).in_range c1pkg.latest none := by
  refine ⟨by decide, by decide, by decide⟩

/-- C2 counterexample: `VersionSpec::parse` hard-fails (returns an error) on
`"^foo"`, where the caret operator is recognized but the payload is not a
valid version. -/
theorem parse_counterexample : VersionSpec.parse ("^foo".data) = none := by
  decide

/-- C2 witness: a string starting with no operator character and containing
no comma parses successfully. -/
theorem parse_total_witness :
    (∀ c ∈ opChars, [c].isPrefixOf (trim ("banana".data)) = false)
    ∧ (trim ("banana".data)).contains ',' = false
    ∧ (VersionSpec.parse ("banana".data)).isSome = true :=
  ⟨by decide, by decide,
   parse_total_without_operator ("banana".data) (by decide) (by decide)⟩

/-- The parse of "1.0.0-rc1": the `rc` marker wins over the earlier `-`. -/
def c3ver : Version :=
  { major := 1, minor := 0, patch := 0, pre_release := some ("rc1".data),
    localSeg := none, original := "1.0.0-rc1".data }

/-- C3 witness: the split of "1.0.0-rc1" at its first marker, the verbatim
recombination, and the pre-release tag stored by `from_str`. -/
theorem prerelease_split_witness :
    parse_prerelease ("1.0.0-rc1".data) = specMarkerSplit ("1.0.0-rc1".data)
    ∧ "1.0.0-".data ++ "rc1".data = "1.0.0-rc1".data
    ∧ c3ver.pre_release =
        (parse_prerelease (match firstOccIdx [ '+' ] (trim ("1.0.0-rc1".data)) with
          | some idx => (trim ("1.0.0-rc1".data)).take idx
          | none => trim ("1.0.0-rc1".data))).2 :=
  ⟨(prerelease_split_rule ("1.0.0-rc1".data)).1,
   (prerelease_split_rule ("1.0.0-rc1".data)).2.1 ("1.0.0-".data) ("rc1".data)
     (by decide),
   (prerelease_split_rule ("1.0.0-rc1".data)).2.2 c3ver (by decide)⟩

/-- An unbounded `>=0.1.0` dependency. -/
def c4dep : Dependency :=
  { name := "m".data, version_spec := .Minimum (Version.new 0 1 0),
    source_file := [], line_number := 1, original_line := [] }

/-- A package with versions 0.1.0 and 1.25.0, latest 1.25.0. -/
def c4pkg : PackageInfo :=
  { name := "m".data, versions := [Version.new 0 1 0, Version.new 1 25 0],
    latest := Version.new 1 25 0, latest_stable := none }

/-- C4 counterexample: with spec `>=0.1.0`, installed 1.25.0 equal to both
latest and the in-range result, the resolver still suggests an update
(retargeting the constraint at `>=1.25.0`), so `update_to` is not `none`. -/
theorem resolve_idempotence_counterexample :
    Version.eqb (Version.new 1 25 0) c4pkg.latest = true
    ∧ (resolve defaultArgs c4dep c4pkg (some (Version.new 1 25 0))).in_range
        = some (Version.new 1 25 0)
    ∧ (resolve defaultArgs c4dep c4pkg (some (Version.new 1 25 0))).update_to
        = some (VersionSpec.Minimum (Version.new 1 25 0))
    ∧ (resolve defaultArgs c4dep c4pkg (some (Version.new 1 25 0))).update_to
        ≠ none := by
  refine ⟨by decide, by decide, by decide, by decide⟩

/-- A `>=1.2.0` dependency whose base equals its package's only version. -/
def c4wdep : Dependency :=
  { name := "w".data, version_spec := .Minimum (Version.new 1 2 0),
    source_file := [], line_number := 1, original_line := [] }

/-- A package whose only version 1.2.0 is also its latest. -/
def c4wpkg : PackageInfo :=
  { name := "w".data, versions := [Version.new 1 2 0],
    latest := Version.new 1 2 0, latest_stable := none }

/-- C4 witness: when installed, latest, in-range and the spec's base all
coincide, the default-mode resolver reports no update. -/
theorem resolve_idempotent_witness :
    Version.eqb (Version.new 1 2 0) c4wpkg.latest = true
    ∧ (resolve defaultArgs c4wdep c4wpkg (some (Version.new 1 2 0))).update_to
        = none :=
  ⟨by decide,
   resolve_idempotent_at_base c4wdep c4wpkg (Version.new 1 2 0)
     (Version.new 1 2 0) (Version.new 1 2 0)
     (by decide) (by decide) (by decide) (by decide) (by decide)⟩

/-- C5 counterexample: for spec `!=1.0.0` over available versions 1.0.0 and
2.0.0, the code's in-range result is `none` (the extra `max_major` filter
discards 2.0.0), while the claim's rule — satisfaction only — yields
2.0.0. -/
theorem in_range_counterexample :
    calculate_in_range (VersionSpec.NotEqual (Version.new 1 0 0))
        [Version.new 1 0 0, Version.new 2 0 0] none = none
    ∧ claimInRange (VersionSpec.NotEqual (Version.new 1 0 0))
        [Version.new 1 0 0, Version.new 2 0 0] none = some (Version.new 2 0 0)
    ∧ calculate_in_range (VersionSpec.NotEqual (Version.new 1 0 0))
        [Version.new 1 0 0, Version.new 2 0 0] none
      ≠ claimInRange (VersionSpec.NotEqual (Version.new 1 0 0))
        [Version.new 1 0 0, Version.new 2 0 0] none := by
  refine ⟨by decide, by decide, by decide⟩

/-- A check for severity of current 1.9.9 against target 2.0.0. -/
def c7check : DependencyCheck :=
  { dependency :=
      { name := "n".data, version_spec := .Pinned (Version.new 1 9 9),
        source_file := [], line_number := 1, original_line := [] },
    installed := some (Version.new 1 9 9),
    in_range := none,
    latest := Version.new 2 0 0,
    update_to := some (.Pinned (Version.new 2 0 0)) }

/-- C7 witness: current 1.9.9, target 2.0.0 — a greater major forces
severity Major even though the minor and patch components decrease. -/
theorem update_severity_witness :
    (match c7check.installed with
     | some i => some i
     | none => c7check.dependency.version_spec.base_version)
       = some (Version.new 1 9 9)
    ∧ c7check.update_severity = some UpdateSeverity.Major :=
  ⟨rfl,
   (update_severity_three_tier c7check (Version.new 1 9 9) (Version.new 2 0 0)
      rfl rfl).2 (by decide)⟩

/-- C8 witness: transitivity applied at 1.2.3 < 1.2.4 < 2.0.0. -/
theorem version_order_witness :
    Version.cmp (Version.new 1 2 3) (Version.new 2 0 0) = .lt :=
  (version_order_total_trans (Version.new 1 2 3) (Version.new 1 2 4)
      (Version.new 2 0 0)).2.1 (by decide) (by decide)

/-- An unbounded `>=1.0.0` dependency. -/
def c10dep : Dependency :=
  { name := "d".data, version_spec := .Minimum (Version.new 1 0 0),
    source_file := [], line_number := 1, original_line := [] }

/-- A package with versions 1.0.0 and 1.2.0, latest 1.2.0. -/
def c10pkg : PackageInfo :=
  { name := "d".data, versions := [Version.new 1 0 0, Version.new 1 2 0],
    latest := Version.new 1 2 0, latest_stable := none }

/-- C10 witness: with installed 1.0.0 the suggested `>=1.2.0` retargets the
spec at 1.2.0, which is no lower than the installed version. -/
theorem resolve_no_downgrade_witness :
    isPinned c10dep.version_spec = false
    ∧ ∃ t, VersionSpec.Minimum (Version.new 1 2 0)
            = c10dep.version_spec.with_version t
        ∧ Version.geb t (Version.new 1 0 0) = true :=
  ⟨rfl,
   resolve_no_downgrade defaultArgs c10dep c10pkg (Version.new 1 0 0)
     (VersionSpec.Minimum (Version.new 1 2 0)) (by decide) (by decide)⟩

end CheckUpdates
